import Mathlib

/-!
Verification of the `tuxliketimeout` launcher (`tuxliketimeout.cpp`).

The development embeds the two components of the program:

* the argument quoter `ArgvQuote` and the command-line assembly loop of
  `wmain`, as pure functions on lists of characters;
* the timeout supervisor inside `wmain` (process creation, bounded wait,
  forced termination, exit-code retrieval, and the two `HandleGuard`s),
  as a pure function of the outcomes of the underlying OS calls.

Machine integers (`DWORD`, C `int`) are modelled by `Nat` and `Int`, with
the unsigned-to-signed conversion made explicit.
-/

set_option autoImplicit false

/-- Wide strings (`std::wstring`) are modelled as lists of characters. -/
abbrev Str := List Char

/-- The backslash character. -/
def bs : Char := '\\'

/-- The double-quote character. -/
def qt : Char := '"'

/-- The vertical-tab character (C `\v`). -/
def vtab : Char := Char.ofNat 11

/-- Characters looked for by `Argument.find_first_of(L" \t\n\v\"")` in the
fast-path test of `ArgvQuote` (source line 59). -/
def isQSpecial (c : Char) : Bool :=
  c == ' ' || c == '\t' || c == '\n' || c == vtab || c == qt

/-- The scanning loop of `ArgvQuote` (source lines 64–88), appending into
the command-line buffer `cl` exactly as the C++ loop mutates `CommandLine`.
`nb` is the count of consecutive backslashes collected so far by the inner
`while` loop.  At the end of the argument the collected backslashes are
emitted doubled; before a literal quote they are emitted doubled plus one
escaping backslash and the quote; before any other character they are
emitted as they are, followed by that character. -/
def qloopApp : Str → Nat → Str → Str
  | [], nb, cl => cl ++ List.replicate (2 * nb) bs
  | c :: rest, nb, cl =>
    if c = bs then qloopApp rest (nb + 1) cl
    else if c = qt then qloopApp rest 0 (cl ++ List.replicate (2 * nb + 1) bs ++ [qt])
    else qloopApp rest 0 (cl ++ List.replicate nb bs ++ [c])

/-- The scanning loop of `ArgvQuote` as a function of the argument alone
(empty prior buffer). -/
def qloop (s : Str) (nb : Nat) : Str := qloopApp s nb []

/-- `ArgvQuote` (source lines 51–92): append the encoding of `Argument` to
`CommandLine`.  The fast path (no forced quoting, non-empty argument, none
of the characters space, tab, newline, vertical tab, double quote) appends
the argument verbatim; otherwise the argument is wrapped in double quotes
around the output of the scanning loop. -/
def ArgvQuote (Argument : Str) (CommandLine : Str) (Force : Bool) : Str :=
  if Force = false ∧ Argument ≠ [] ∧ Argument.all (fun c => !(isQSpecial c)) = true then
    CommandLine ++ Argument
  else
    qloopApp Argument 0 (CommandLine ++ [qt]) ++ [qt]

/-- Command-line assembly loop of `wmain` (source lines 143–149): each
argument is quoted (with `Force` false) and appended, followed by a space.
The guard `argi < argc` inside the loop body is the loop condition itself
and is therefore always true, so the space is appended after every
argument, the last one included. -/
def buildCommandLine (args : List Str) : Str :=
  args.foldl (fun cl a => ArgvQuote a cl false ++ [' ']) []

/-- Separator characters of a command line (space and tab). -/
def isSep (c : Char) : Bool := c == ' ' || c == '\t'

/-- Close the token under construction: emit it when any character was
accumulated or any quote was seen (so `""` yields an empty argument). -/
def flushTok (cur : Str) (started : Bool) (rest : List Str) : List Str :=
  if started = true ∨ cur ≠ [] then cur :: rest else rest

/-- Standard Windows argv tokenizer (the `CommandLineToArgvW` convention
cited by the quoting routine): `2n` backslashes before a double quote
produce `n` backslashes and the quote toggles in-quote mode; `2n+1`
backslashes before a double quote produce `n` backslashes and a literal
quote; backslashes not followed by a double quote are literal; space and
tab outside quotes separate arguments.  `nb` counts pending backslashes,
`inQ` is the in-quote mode, `cur` and `started` describe the token under
construction. -/
def tok : Str → Nat → Bool → Str → Bool → List Str
  | [], nb, _inQ, cur, started => flushTok (cur ++ List.replicate nb bs) started []
  | c :: rest, nb, inQ, cur, started =>
    if c = bs then tok rest (nb + 1) inQ cur started
    else if c = qt then
      if nb % 2 = 1 then tok rest 0 inQ (cur ++ List.replicate (nb / 2) bs ++ [qt]) true
      else tok rest 0 (!inQ) (cur ++ List.replicate (nb / 2) bs) true
    else if isSep c = true ∧ inQ = false then
      flushTok (cur ++ List.replicate nb bs) started (tok rest 0 inQ [] false)
    else tok rest 0 inQ (cur ++ List.replicate nb bs ++ [c]) true

/-- Split a command line into its argument tokens. -/
def tokenize (s : Str) : List Str := tok s 0 false [] false

/-- The inner `while` loop of `ArgvQuote`'s scan (source lines 67–70):
count the leading backslashes and return them with the remaining suffix. -/
def splitBS : Str → Nat × Str
  | [] => (0, [])
  | c :: rest =>
    if c = bs then ((splitBS rest).1 + 1, (splitBS rest).2)
    else (0, c :: rest)

/-- The scanning loop of `ArgvQuote` executed step by step with explicit
fuel: one unit of fuel per iteration of the outer `for` loop (source lines
64–88).  Exhausted fuel yields `none`. -/
def qloopFuel : Nat → Str → Option Str
  | 0, _ => none
  | fuel + 1, s =>
    match (splitBS s).2 with
    | [] => some (List.replicate (2 * (splitBS s).1) bs)
    | c :: rest =>
      if c = qt then
        (qloopFuel fuel rest).map
          (fun t => List.replicate (2 * (splitBS s).1 + 1) bs ++ qt :: t)
      else
        (qloopFuel fuel rest).map
          (fun t => List.replicate (splitBS s).1 bs ++ c :: t)

/-- Outcomes of the OS calls made by one run of the timeout supervisor.
`createError` is `GetLastError()` after a failed `CreateProcessW`;
`waitResult` is the `DWORD` returned by `WaitForSingleObject(pi.hProcess,
time_out)`; `probeResult` is the `DWORD` returned by the zero-duration
`WaitForSingleObject(pi.hThread, 0)` in the timeout branch; `exitCode` is
the `DWORD` written by `GetExitCodeProcess`. -/
structure OSEnv where
  createOk : Bool
  createError : Nat
  waitResult : Nat
  terminateOk : Bool
  probeResult : Nat
  exitCodeOk : Bool
  exitCode : Nat

/-- Windows constant `WAIT_OBJECT_0`. -/
def WAIT_OBJECT_0 : Nat := 0

/-- Windows constant `WAIT_TIMEOUT` (0x102). -/
def WAIT_TIMEOUT : Nat := 258

/-- Windows constant `WAIT_FAILED` (0xFFFFFFFF). -/
def WAIT_FAILED : Nat := 4294967295

/-- Windows constant `ERROR_FILE_NOT_FOUND`. -/
def ERROR_FILE_NOT_FOUND : Nat := 2

/-- Exit code 124: job timed out (source line 30). -/
def EXIT_TIMEDOUT : Int := 124

/-- Exit code 125: internal error (source line 31). -/
def EXIT_CANCELED : Int := 125

/-- Exit code 126: error executing job (source line 32). -/
def EXIT_CANNOT_INVOKE : Int := 126

/-- Exit code 127: job to execute not found (source line 33). -/
def EXIT_ENOENT : Int := 127

/-- Conversion of a 32-bit unsigned value (`DWORD`) to a C `int`
(two's-complement reinterpretation), as in `return error_code;` at source
line 209. -/
def toInt32 (n : Nat) : Int :=
  if n % 2 ^ 32 < 2 ^ 31 then ((n % 2 ^ 32 : Nat) : Int)
  else ((n % 2 ^ 32 : Nat) : Int) - 2 ^ 32

/-- Acquisition and release events on the two OS handles owned by the
supervisor through its `HandleGuard`s (source lines 102–112, 182–183). -/
inductive HEvent where
  | acquireProcess
  | acquireThread
  | releaseProcess
  | releaseThread
  deriving DecidableEq

/-- Handle events of one return path after a successful `CreateProcessW`:
the two `HandleGuard` destructors run at every `return`, releasing the
thread and process handles. -/
def guardedReturn (code : Int) : List HEvent × Int :=
  ([HEvent.releaseThread, HEvent.releaseProcess], code)

/-- The timeout supervisor inside `wmain` (source lines 155–220), with the
handle events it performs.  When `CreateProcessW` fails no handle exists
and the error is mapped by the `GetLastError()` switch; on success both
handles are acquired and the `WaitForSingleObject` switch decides the exit
code.  The post-terminate probe test models the C++ condition
`!WaitForSingleObject(pi.hThread, 0)`, which is true exactly when the
returned `DWORD` is zero. -/
def runEvents (env : OSEnv) : List HEvent × Int :=
  if env.createOk = false then
    if env.createError = ERROR_FILE_NOT_FOUND then ([], EXIT_ENOENT)
    else ([], EXIT_CANNOT_INVOKE)
  else
    let body : List HEvent × Int :=
      if env.waitResult = WAIT_FAILED then guardedReturn EXIT_CANCELED
      else if env.waitResult = WAIT_TIMEOUT then
        if env.terminateOk = false then guardedReturn EXIT_CANCELED
        else if env.probeResult = 0 then guardedReturn EXIT_CANCELED
        else guardedReturn EXIT_TIMEDOUT
      else if env.waitResult = WAIT_OBJECT_0 then
        if env.exitCodeOk = true then guardedReturn (toInt32 env.exitCode)
        else guardedReturn EXIT_CANCELED
      else guardedReturn EXIT_CANCELED
    (HEvent.acquireProcess :: HEvent.acquireThread :: body.1, body.2)

/-- Exit code of one supervisor run. -/
def run (env : OSEnv) : Int := (runEvents env).2

/-- One invocation of the program: the argument count, whether
`std::stoul` parsed the timeout (the two `catch` branches both reject),
and the OS-call outcomes of the run. -/
structure Invocation where
  argc : Nat
  timeoutParseOk : Bool
  os : OSEnv

/-- `wmain` (source lines 116–221) abstracted over the OS-call outcomes:
usage check, timeout parsing, then the supervisor run. -/
def wmain (inv : Invocation) : Int :=
  if inv.argc < 3 then EXIT_CANCELED
  else if inv.timeoutParseOk = false then EXIT_CANCELED
  else run inv.os

/-- Exit status of the launcher process as observed by its caller: the C
runtime hands `wmain`'s return value to `ExitProcess`, which keeps its low
32 bits as the unsigned process exit code. -/
def exitStatusOf (code : Int) : Nat := (code % 2 ^ 32).toNat

/-- Failure classification of an invocation, following the branch
structure of `wmain`; `none` on the two success paths (the child completed
and its exit code was retrieved, or the timeout branch reached `return
EXIT_TIMEDOUT`).  Each kind corresponds to one diagnostic branch of the
source. -/
inductive FailKind where
  | usageError
  | invalidTimeout
  | commandNotFound
  | cannotInvoke
  | waitFailed
  | unexpectedWaitResult
  | terminateFailed
  | postTerminateCheckFailed
  | exitCodeUnavailable
  deriving DecidableEq

/-- The failure kind, if any, an invocation runs into, read off the branch
that `wmain` returns from. -/
def failureKindOf (inv : Invocation) : Option FailKind :=
  if inv.argc < 3 then some FailKind.usageError
  else if inv.timeoutParseOk = false then some FailKind.invalidTimeout
  else if inv.os.createOk = false then
    if inv.os.createError = ERROR_FILE_NOT_FOUND then some FailKind.commandNotFound
    else some FailKind.cannotInvoke
  else if inv.os.waitResult = WAIT_FAILED then some FailKind.waitFailed
  else if inv.os.waitResult = WAIT_TIMEOUT then
    if inv.os.terminateOk = false then some FailKind.terminateFailed
    else if inv.os.probeResult = 0 then some FailKind.postTerminateCheckFailed
    else none
  else if inv.os.waitResult = WAIT_OBJECT_0 then
    if inv.os.exitCodeOk = true then none else some FailKind.exitCodeUnavailable
  else some FailKind.unexpectedWaitResult

/-- The exit code the spec assigns to each failure kind: 127 for a missing
command, 126 for any other invocation failure, 125 for everything else. -/
def failExitCode (k : FailKind) : Int :=
  match k with
  | FailKind.commandNotFound => EXIT_ENOENT
  | FailKind.cannotInvoke => EXIT_CANNOT_INVOKE
  | _ => EXIT_CANCELED

/-! ## Lemmas about the quoting loop -/

lemma qloopApp_append (s : Str) : ∀ (nb : Nat) (cl : Str),
    qloopApp s nb cl = cl ++ qloopApp s nb [] := by
  induction s with
  | nil => intro nb cl; simp [qloopApp]
  | cons c rest ih =>
    intro nb cl
    simp only [qloopApp]
    split
    · exact ih (nb + 1) cl
    · split
      · rw [ih 0 (cl ++ List.replicate (2 * nb + 1) bs ++ [qt]),
            ih 0 ([] ++ List.replicate (2 * nb + 1) bs ++ [qt])]
        simp
      · rw [ih 0 (cl ++ List.replicate nb bs ++ [c]),
            ih 0 ([] ++ List.replicate nb bs ++ [c])]
        simp

lemma qloop_nil (nb : Nat) : qloop [] nb = List.replicate (2 * nb) bs := by
  simp [qloop, qloopApp]

lemma qloop_bs (s : Str) (nb : Nat) : qloop (bs :: s) nb = qloop s (nb + 1) := by
  simp [qloop, qloopApp]

lemma qloop_qt (s : Str) (nb : Nat) :
    qloop (qt :: s) nb = List.replicate (2 * nb + 1) bs ++ qt :: qloop s 0 := by
  have hqb : ¬(qt = bs) := by decide
  simp only [qloop, qloopApp, if_neg hqb, if_pos rfl]
  rw [qloopApp_append]
  simp

lemma qloop_other (c : Char) (s : Str) (nb : Nat) (hcb : c ≠ bs) (hcq : c ≠ qt) :
    qloop (c :: s) nb = List.replicate nb bs ++ c :: qloop s 0 := by
  simp only [qloop, qloopApp, if_neg hcb, if_neg hcq]
  rw [qloopApp_append]
  simp

lemma ArgvQuote_append (a cl : Str) (f : Bool) :
    ArgvQuote a cl f = cl ++ ArgvQuote a [] f := by
  by_cases h : (f = false ∧ a ≠ [] ∧ a.all (fun c => !(isQSpecial c)) = true)
  · simp [ArgvQuote, h]
  · simp only [ArgvQuote, if_neg h]
    rw [qloopApp_append a 0 (cl ++ [qt]), qloopApp_append a 0 ([] ++ [qt])]
    simp

lemma ArgvQuote_quoted (a : Str) (f : Bool)
    (h : ¬(f = false ∧ a ≠ [] ∧ a.all (fun c => !(isQSpecial c)) = true)) :
    ArgvQuote a [] f = qt :: (qloop a 0 ++ [qt]) := by
  simp only [ArgvQuote, if_neg h]
  rw [qloopApp_append]
  simp [qloop]

/-- C9: `ArgvQuote` only appends: the buffer after a call is its prior
contents followed by an encoding that depends only on the argument and the
force flag, never on the prior contents. -/
theorem argvQuote_appends_only (Argument CommandLine : Str) (Force : Bool) :
    ArgvQuote Argument CommandLine Force
      = CommandLine ++ ArgvQuote Argument [] Force :=
  ArgvQuote_append Argument CommandLine Force

/-- C3: the claim fails on the code.  The guard `if (argi < argc)` inside
the assembly loop is always true, so a trailing space follows the last
quoted argument: for the single argument `a` the command line is `a ` and
not `a`. -/
theorem buildCommandLine_appends_trailing_space :
    buildCommandLine [['a']] = ['a', ' '] ∧ buildCommandLine [['a']] ≠ ['a'] := by
  constructor <;> decide

/-! ## Lemmas about the tokenizer -/

lemma flushTok_true (cur : Str) (r : List Str) : flushTok cur true r = cur :: r := by
  simp [flushTok]

lemma flushTok_ne (cur : Str) (st : Bool) (r : List Str) (h : cur ≠ []) :
    flushTok cur st r = cur :: r := by
  simp [flushTok, h]

lemma tok_step_bs (rest : Str) (nb : Nat) (inQ : Bool) (cur : Str) (started : Bool) :
    tok (bs :: rest) nb inQ cur started = tok rest (nb + 1) inQ cur started := by
  simp [tok]

lemma tok_step_qt (rest : Str) (nb : Nat) (inQ : Bool) (cur : Str) (started : Bool) :
    tok (qt :: rest) nb inQ cur started
      = if nb % 2 = 1 then tok rest 0 inQ (cur ++ List.replicate (nb / 2) bs ++ [qt]) true
        else tok rest 0 (!inQ) (cur ++ List.replicate (nb / 2) bs) true := by
  have h : ¬(qt = bs) := by decide
  simp [tok, h]

lemma tok_step_sep (c : Char) (rest : Str) (nb : Nat) (cur : Str) (started : Bool)
    (hb : c ≠ bs) (hq : c ≠ qt) (hs : isSep c = true) :
    tok (c :: rest) nb false cur started
      = flushTok (cur ++ List.replicate nb bs) started (tok rest 0 false [] false) := by
  simp [tok, hb, hq, hs]

lemma tok_step_char (c : Char) (rest : Str) (nb : Nat) (inQ : Bool) (cur : Str)
    (started : Bool) (hb : c ≠ bs) (hq : c ≠ qt)
    (hs : ¬(isSep c = true ∧ inQ = false)) :
    tok (c :: rest) nb inQ cur started
      = tok rest 0 inQ (cur ++ List.replicate nb bs ++ [c]) true := by
  simp only [tok, if_neg hb, if_neg hq, if_neg hs]

lemma tok_replicate_bs (k : Nat) :
    ∀ (s : Str) (nb : Nat) (inQ : Bool) (cur : Str) (started : Bool),
    tok (List.replicate k bs ++ s) nb inQ cur started = tok s (nb + k) inQ cur started := by
  induction k with
  | zero => intros; simp
  | succ k ih =>
    intro s nb inQ cur started
    rw [List.replicate_succ, List.cons_append, tok_step_bs,
        ih s (nb + 1) inQ cur started]
    have hnk : nb + 1 + k = nb + (k + 1) := by omega
    rw [hnk]

lemma isQSpecial_false (c : Char) (h : isQSpecial c = false) :
    c ≠ qt ∧ isSep c = false := by
  simp only [isQSpecial, Bool.or_eq_false_iff, beq_eq_false_iff_ne, ne_eq] at h
  obtain ⟨⟨⟨⟨h1, h2⟩, h3⟩, h4⟩, h5⟩ := h
  refine ⟨h5, ?_⟩
  simp [isSep, h1, h2]

lemma tok_fast (rest : Str) :
    ∀ (arg : Str), arg.all (fun c => !(isQSpecial c)) = true →
    ∀ (nb : Nat) (cur : Str) (started : Bool),
    tok (arg ++ ' ' :: rest) nb false cur started
      = flushTok (cur ++ List.replicate nb bs ++ arg) started
          (tok rest 0 false [] false) := by
  intro arg
  induction arg with
  | nil =>
    intro _ nb cur started
    rw [List.nil_append,
        tok_step_sep ' ' rest nb cur started (by decide) (by decide) (by decide)]
    simp
  | cons c arg ih =>
    intro hall nb cur started
    simp only [List.all_cons, Bool.and_eq_true, Bool.not_eq_true'] at hall
    obtain ⟨hc, hrest⟩ := hall
    obtain ⟨hcq, hcs⟩ := isQSpecial_false c hc
    by_cases hb : c = bs
    · subst hb
      rw [List.cons_append, tok_step_bs, ih hrest (nb + 1) cur started]
      have hre : cur ++ List.replicate (nb + 1) bs ++ arg
           = cur ++ List.replicate nb bs ++ bs :: arg := by
        rw [List.replicate_succ']
        simp
      rw [hre]
    · rw [List.cons_append,
          tok_step_char c _ nb false cur started hb hcq (by simp [hcs]),
          ih hrest 0 (cur ++ List.replicate nb bs ++ [c]) true,
          flushTok_true, flushTok_ne]
      · simp
      · simp

lemma tok_quoted (rest : Str) :
    ∀ (arg : Str) (nbq : Nat) (cur : Str),
    tok (qloop arg nbq ++ qt :: ' ' :: rest) 0 true cur true
      = (cur ++ List.replicate nbq bs ++ arg) :: tok rest 0 false [] false := by
  intro arg
  induction arg with
  | nil =>
    intro nbq cur
    rw [qloop_nil, tok_replicate_bs, tok_step_qt]
    rw [if_neg (by omega : ¬((0 + 2 * nbq) % 2 = 1))]
    rw [(by omega : (0 + 2 * nbq) / 2 = nbq), Bool.not_true]
    rw [tok_step_sep ' ' rest 0 _ true (by decide) (by decide) (by decide)]
    rw [flushTok_true]
    simp
  | cons c arg ih =>
    intro nbq cur
    by_cases hb : c = bs
    · subst hb
      rw [qloop_bs, ih (nbq + 1) cur, List.replicate_succ']
      simp
    · by_cases hq : c = qt
      · subst hq
        rw [qloop_qt, List.append_assoc, tok_replicate_bs, List.cons_append,
            tok_step_qt]
        rw [if_pos (by omega : (0 + (2 * nbq + 1)) % 2 = 1)]
        rw [(by omega : (0 + (2 * nbq + 1)) / 2 = nbq)]
        rw [ih 0 (cur ++ List.replicate nbq bs ++ [qt])]
        simp
      · rw [qloop_other c arg nbq hb hq, List.append_assoc, tok_replicate_bs,
            List.cons_append,
            tok_step_char c _ _ true _ true hb hq (by simp)]
        rw [ih 0 _]
        simp

lemma tok_one (a : Str) (rest : Str) :
    tok (ArgvQuote a [] false ++ ' ' :: rest) 0 false [] false
      = a :: tok rest 0 false [] false := by
  by_cases h : ((false : Bool) = false ∧ a ≠ [] ∧ a.all (fun c => !(isQSpecial c)) = true)
  · rw [show ArgvQuote a [] false = a from by simp [ArgvQuote, h]]
    rw [tok_fast rest a h.2.2 0 [] false]
    rw [flushTok_ne _ _ _ (by simpa using h.2.1)]
    simp
  · rw [ArgvQuote_quoted a false h, List.cons_append, tok_step_qt]
    rw [if_neg (by omega : ¬((0 : Nat) % 2 = 1))]
    rw [List.append_assoc, List.singleton_append, Bool.not_false]
    rw [tok_quoted rest a 0 _]
    simp

lemma buildCommandLine_eq (args : List Str) :
    buildCommandLine args
      = (args.map (fun a => ArgvQuote a [] false ++ [' '])).flatten := by
  suffices h : ∀ cl, args.foldl (fun cl a => ArgvQuote a cl false ++ [' ']) cl
      = cl ++ (args.map (fun a => ArgvQuote a [] false ++ [' '])).flatten by
    simpa [buildCommandLine] using h []
  induction args with
  | nil => intro cl; simp
  | cons a args ih =>
    intro cl
    simp only [List.foldl_cons, List.map_cons, List.flatten_cons]
    rw [ih, ArgvQuote_append]
    simp

/-- C2: for every sequence of arguments — empty strings, interior
whitespace, trailing backslashes, embedded quotes and backslash-quote
sequences included — quoting each with `ArgvQuote` and assembling the
command line exactly as `wmain` does, the standard argv tokenizer yields
back the original sequence, element for element. -/
theorem tokenize_buildCommandLine_roundtrip (args : List Str) :
    tokenize (buildCommandLine args) = args := by
  rw [buildCommandLine_eq]
  show tok ((args.map (fun a => ArgvQuote a [] false ++ [' '])).flatten) 0 false [] false
      = args
  induction args with
  | nil => simp [tok, flushTok]
  | cons a args ih =>
    simp only [List.map_cons, List.flatten_cons]
    rw [List.append_assoc, List.singleton_append, tok_one, ih]

/-! ## Escaping laws of the quoting loop -/

lemma qloop_replicate (n : Nat) : ∀ (nb : Nat),
    qloop (List.replicate n bs) nb = List.replicate (2 * (nb + n)) bs := by
  induction n with
  | zero => intro nb; simp [qloop_nil]
  | succ n ih =>
    intro nb
    rw [List.replicate_succ, qloop_bs, ih (nb + 1)]
    rw [(by omega : 2 * (nb + 1 + n) = 2 * (nb + (n + 1)))]

lemma qloop_replicate_append (k : Nat) : ∀ (s : Str) (nb : Nat),
    qloop (List.replicate k bs ++ s) nb = qloop s (nb + k) := by
  induction k with
  | zero => intro s nb; simp
  | succ k ih =>
    intro s nb
    rw [List.replicate_succ, List.cons_append, qloop_bs, ih s (nb + 1)]
    rw [(by omega : nb + 1 + k = nb + (k + 1))]

lemma qloop_emit_last (c : Char) (hcb : c ≠ bs) (tail : Str) :
    ∀ (pre : Str) (nb : Nat),
    ∃ mid, qloop (pre ++ c :: tail) nb = mid ++ qloop tail 0
      ∧ mid ≠ [] ∧ mid.getLast? = some c := by
  intro pre
  induction pre with
  | nil =>
    intro nb
    by_cases hq : c = qt
    · subst hq
      refine ⟨List.replicate (2 * nb + 1) bs ++ [qt], ?_, by simp, ?_⟩
      · rw [List.nil_append, qloop_qt]
        simp
      · exact List.getLast?_concat _
    · refine ⟨List.replicate nb bs ++ [c], ?_, by simp, ?_⟩
      · rw [List.nil_append, qloop_other c tail nb hcb hq]
        simp
      · exact List.getLast?_concat _
  | cons d pre ih =>
    intro nb
    by_cases hd : d = bs
    · subst hd
      obtain ⟨mid, he, hne, hl⟩ := ih (nb + 1)
      refine ⟨mid, ?_, hne, hl⟩
      rw [List.cons_append, qloop_bs]
      exact he
    · by_cases hdq : d = qt
      · subst hdq
        obtain ⟨mid, he, hne, hl⟩ := ih 0
        refine ⟨List.replicate (2 * nb + 1) bs ++ qt :: mid, ?_, by simp, ?_⟩
        · rw [List.cons_append, qloop_qt, he]
          simp
        · rw [List.getLast?_append_of_ne_nil _ (by simp [hne])]
          show ([qt] ++ mid).getLast? = some c
          rw [List.getLast?_append_of_ne_nil _ hne]
          exact hl
      · obtain ⟨mid, he, hne, hl⟩ := ih 0
        refine ⟨List.replicate nb bs ++ d :: mid, ?_, by simp, ?_⟩
        · rw [List.cons_append, qloop_other d _ nb hd hdq, he]
          simp
        · rw [List.getLast?_append_of_ne_nil _ (by simp [hne])]
          show ([d] ++ mid).getLast? = some c
          rw [List.getLast?_append_of_ne_nil _ hne]
          exact hl

/-- C7: for a quoted argument, the escaping laws hold: an argument ending
in exactly `n` backslashes is emitted ending with exactly `2n` backslashes
before the closing quote, and a literal double quote of the argument
preceded by exactly `n` backslashes is emitted as `2n+1` backslashes
followed by the quote (with no further backslash immediately before that
run). -/
theorem argvQuote_escaping_laws (arg : Str) (force : Bool)
    (hq : ¬(force = false ∧ arg ≠ [] ∧ arg.all (fun c => !(isQSpecial c)) = true)) :
    (∀ (n : Nat) (pre : Str), arg = pre ++ List.replicate n bs →
        pre.getLast? ≠ some bs →
        ∃ mid, ArgvQuote arg [] force
            = qt :: (mid ++ (List.replicate (2 * n) bs ++ [qt]))
          ∧ mid.getLast? ≠ some bs)
    ∧ (∀ (n : Nat) (pre suf : Str),
        arg = pre ++ (List.replicate n bs ++ qt :: suf) →
        pre.getLast? ≠ some bs →
        ∃ mid rest, ArgvQuote arg [] force
            = qt :: (mid ++ (List.replicate (2 * n + 1) bs ++ qt :: rest))
          ∧ mid.getLast? ≠ some bs) := by
  have hAQ := ArgvQuote_quoted arg force hq
  constructor
  · intro n pre harg hpre
    rcases List.eq_nil_or_concat pre with rfl | ⟨l, c, hlc⟩
    · simp only [List.nil_append] at harg
      subst harg
      refine ⟨[], ?_, by simp⟩
      rw [hAQ, qloop_replicate n 0, Nat.zero_add]
      simp
    · rw [List.concat_eq_append] at hlc
      subst hlc
      have hc : c ≠ bs := by
        intro h
        exact hpre (by rw [List.getLast?_concat, h])
      rw [List.append_assoc, List.singleton_append] at harg
      subst harg
      obtain ⟨mid, he, hne, hl⟩ := qloop_emit_last c hc (List.replicate n bs) l 0
      rw [qloop_replicate n 0, Nat.zero_add] at he
      refine ⟨mid, ?_, ?_⟩
      · rw [hAQ, he]
        simp
      · rw [hl]
        simp [hc]
  · intro n pre suf harg hpre
    rcases List.eq_nil_or_concat pre with rfl | ⟨l, c, hlc⟩
    · simp only [List.nil_append] at harg
      subst harg
      refine ⟨[], qloop suf 0 ++ [qt], ?_, by simp⟩
      rw [hAQ, qloop_replicate_append n (qt :: suf) 0, Nat.zero_add, qloop_qt]
      simp
    · rw [List.concat_eq_append] at hlc
      subst hlc
      have hc : c ≠ bs := by
        intro h
        exact hpre (by rw [List.getLast?_concat, h])
      rw [List.append_assoc, List.singleton_append] at harg
      subst harg
      obtain ⟨mid, he, hne, hl⟩ :=
        qloop_emit_last c hc (List.replicate n bs ++ qt :: suf) l 0
      rw [qloop_replicate_append n (qt :: suf) 0, Nat.zero_add, qloop_qt] at he
      refine ⟨mid, qloop suf 0 ++ [qt], ?_, ?_⟩
      · rw [hAQ, he]
        simp
      · rw [hl]
        simp [hc]

/-- Witness for C7 at the concrete argument backslash-quote: it ends in
exactly zero backslashes, so the quoted form ends in zero extra
backslashes before the closing quote; its quote is preceded by exactly one
backslash, emitted as three backslashes and the quote. -/
theorem argvQuote_escaping_laws_witness :
    (∃ mid, ArgvQuote [bs, qt] [] false
        = qt :: (mid ++ (List.replicate (2 * 0) bs ++ [qt]))
      ∧ mid.getLast? ≠ some bs)
    ∧ (∃ mid rest, ArgvQuote [bs, qt] [] false
        = qt :: (mid ++ (List.replicate (2 * 1 + 1) bs ++ qt :: rest))
      ∧ mid.getLast? ≠ some bs) := by
  constructor
  · exact (argvQuote_escaping_laws [bs, qt] false (by decide)).1 0 [bs, qt]
      (by decide) (by decide)
  · exact (argvQuote_escaping_laws [bs, qt] false (by decide)).2 1 [] []
      (by decide) (by decide)

/-! ## Termination of the scanning loop -/

lemma splitBS_snd_length (s : Str) : (splitBS s).2.length ≤ s.length := by
  induction s with
  | nil => simp [splitBS]
  | cons c rest ih =>
    simp only [splitBS]
    split
    · simp only [List.length_cons]
      omega
    · simp

lemma qloop_of_splitBS_nil : ∀ (s : Str), (splitBS s).2 = [] →
    ∀ (nb : Nat), qloop s nb = List.replicate (2 * (nb + (splitBS s).1)) bs := by
  intro s
  induction s with
  | nil => intro _ nb; simp [splitBS, qloop_nil]
  | cons d rest ih =>
    intro h nb
    by_cases hd : d = bs
    · subst hd
      have h' : (splitBS rest).2 = [] := by simpa [splitBS] using h
      have hs1 : (splitBS (bs :: rest)).1 = (splitBS rest).1 + 1 := by
        simp [splitBS]
      rw [hs1, qloop_bs, ih h' (nb + 1)]
      rw [(by omega : 2 * (nb + 1 + (splitBS rest).1)
            = 2 * (nb + ((splitBS rest).1 + 1)))]
    · simp only [splitBS, if_neg hd] at h
      exact absurd h (by simp)

lemma qloop_of_splitBS_cons : ∀ (s : Str) (c : Char) (r : Str),
    (splitBS s).2 = c :: r → ∀ (nb : Nat),
    qloop s nb
      = if c = qt then
          List.replicate (2 * (nb + (splitBS s).1) + 1) bs ++ qt :: qloop r 0
        else
          List.replicate (nb + (splitBS s).1) bs ++ c :: qloop r 0 := by
  intro s
  induction s with
  | nil => intro c r h nb; simp [splitBS] at h
  | cons d rest ih =>
    intro c r h nb
    by_cases hd : d = bs
    · subst hd
      have h' : (splitBS rest).2 = c :: r := by simpa [splitBS] using h
      have hs1 : (splitBS (bs :: rest)).1 = (splitBS rest).1 + 1 := by
        simp [splitBS]
      rw [hs1, qloop_bs, ih c r h' (nb + 1)]
      by_cases hcq : c = qt
      · rw [if_pos hcq, if_pos hcq,
            (by omega : 2 * (nb + 1 + (splitBS rest).1) + 1
              = 2 * (nb + ((splitBS rest).1 + 1)) + 1)]
      · rw [if_neg hcq, if_neg hcq,
            (by omega : nb + 1 + (splitBS rest).1 = nb + ((splitBS rest).1 + 1))]
    · have hinj := h
      simp only [splitBS, if_neg hd] at hinj
      injection hinj with h1 h2
      subst h1
      subst h2
      simp only [splitBS, if_neg hd, Nat.add_zero]
      by_cases hdq : d = qt
      · rw [if_pos hdq]
        subst hdq
        exact qloop_qt rest nb
      · rw [if_neg hdq]
        exact qloop_other d rest nb hd hdq

lemma qloopFuel_sufficient : ∀ (fuel : Nat) (s : Str), s.length < fuel →
    qloopFuel fuel s = some (qloop s 0) := by
  intro fuel
  induction fuel with
  | zero => intro s h; omega
  | succ f ih =>
    intro s h
    simp only [qloopFuel]
    split
    · next heq =>
      rw [qloop_of_splitBS_nil s heq 0, Nat.zero_add]
    · next c r heq =>
      have hlen : r.length < f := by
        have h1 := splitBS_snd_length s
        rw [heq] at h1
        simp only [List.length_cons] at h1
        omega
      rw [qloop_of_splitBS_cons s c r heq 0, Nat.zero_add]
      by_cases hcq : c = qt
      · rw [if_pos hcq, if_pos hcq, ih r hlen]
        rfl
      · rw [if_neg hcq, if_neg hcq, ih r hlen]
        rfl

/-- C8: the scanning loop of `ArgvQuote` terminates on every argument: run
step by step, one fuel unit per iteration of the outer loop, it completes
within `length + 1` iterations and computes the loop's result. -/
theorem qloop_terminates_with_linear_fuel (arg : Str) :
    qloopFuel (arg.length + 1) arg = some (qloop arg 0) :=
  qloopFuel_sufficient (arg.length + 1) arg (by omega)

/-! ## The timeout supervisor -/

lemma run_eq (env : OSEnv) :
    run env
      = if env.createOk = false then
          if env.createError = ERROR_FILE_NOT_FOUND then EXIT_ENOENT
          else EXIT_CANNOT_INVOKE
        else if env.waitResult = WAIT_FAILED then EXIT_CANCELED
        else if env.waitResult = WAIT_TIMEOUT then
          if env.terminateOk = false then EXIT_CANCELED
          else if env.probeResult = 0 then EXIT_CANCELED
          else EXIT_TIMEDOUT
        else if env.waitResult = WAIT_OBJECT_0 then
          if env.exitCodeOk = true then toInt32 env.exitCode else EXIT_CANCELED
        else EXIT_CANCELED := by
  simp only [run, runEvents, guardedReturn]
  split_ifs <;> rfl

lemma runEvents_fst (env : OSEnv) :
    (runEvents env).1
      = if env.createOk = true then
          [HEvent.acquireProcess, HEvent.acquireThread,
           HEvent.releaseThread, HEvent.releaseProcess]
        else [] := by
  simp only [runEvents, guardedReturn]
  split_ifs <;> simp_all

/-- C4: every run acquires and releases each of the two handles exactly
once when process creation succeeded, and performs no handle event at all
when it failed. -/
theorem runEvents_handle_balance (env : OSEnv) (e : HEvent) :
    ((runEvents env).1).count e = if env.createOk = true then 1 else 0 := by
  rw [runEvents_fst]
  cases hco : env.createOk
  · simp
  · cases e <;> decide

/-- C1: the claim fails on the code.  With the bounded wait timing out and
`TerminateProcess` succeeding, a post-terminate probe returning
`WAIT_OBJECT_0` — a success, not an error condition — makes the run
return 125 instead of the claimed 124, while a probe returning
`WAIT_FAILED` — an error — yields 124: the test
`!WaitForSingleObject(pi.hThread, 0)` is true exactly on the zero
(success) return value, inverting the intended check. -/
theorem run_timeout_probe_inverted :
    run { createOk := true, createError := 0, waitResult := 258,
          terminateOk := true, probeResult := 0, exitCodeOk := true,
          exitCode := 0 } = 125
    ∧ run { createOk := true, createError := 0, waitResult := 258,
            terminateOk := true, probeResult := 4294967295, exitCodeOk := true,
            exitCode := 0 } = 124 := by
  constructor <;> rfl

/-- C5: every failure kind is mapped to the exit code the spec states:
127 for a command that was not found, 126 for any other process-creation
failure, and 125 for every other failure kind. -/
theorem failure_kind_exit_codes (inv : Invocation) (k : FailKind)
    (h : failureKindOf inv = some k) : wmain inv = failExitCode k := by
  rcases inv with ⟨argc, tp, os⟩
  simp only [failureKindOf, wmain] at h ⊢
  rw [run_eq]
  split_ifs at h ⊢ <;> (injection h with h2; subst h2; rfl)

/-- Witness for C5: an invocation with too few arguments fails with the
usage-error kind and exits with code 125. -/
theorem failure_kind_exit_codes_witness :
    wmain { argc := 2, timeoutParseOk := true,
            os := { createOk := true, createError := 0, waitResult := 0,
                    terminateOk := true, probeResult := 0, exitCodeOk := true,
                    exitCode := 0 } } = failExitCode FailKind.usageError :=
  failure_kind_exit_codes _ FailKind.usageError rfl

lemma run_completed (env : OSEnv) (h1 : env.createOk = true)
    (h2 : env.waitResult = WAIT_OBJECT_0) (h3 : env.exitCodeOk = true) :
    run env = toInt32 env.exitCode := by
  rw [run_eq, h1, h2, h3]
  simp [WAIT_OBJECT_0, WAIT_FAILED, WAIT_TIMEOUT]

/-- C6: when the child completes within the budget and its exit code is
retrieved, the launcher's observable exit status is the child's exit code
unchanged; the `int` returned from `wmain` equals that exact value
whenever the code is below `2^31` (see the signed reinterpretation law for
larger codes). -/
theorem child_exit_code_passthrough (env : OSEnv)
    (h1 : env.createOk = true) (h2 : env.waitResult = WAIT_OBJECT_0)
    (h3 : env.exitCodeOk = true) (h4 : env.exitCode < 2 ^ 32) :
    exitStatusOf (run env) = env.exitCode
    ∧ (env.exitCode < 2 ^ 31 → run env = (env.exitCode : Int)) := by
  rw [run_completed env h1 h2 h3]
  constructor
  · unfold exitStatusOf toInt32
    rw [Nat.mod_eq_of_lt h4]
    split
    · next hlt => omega
    · next hlt => omega
  · intro h5
    unfold toInt32
    rw [Nat.mod_eq_of_lt h4, if_pos h5]

/-- Witness for C6: a child exiting with code 42 within the budget makes
the launcher exit with status 42. -/
theorem child_exit_code_passthrough_witness :
    exitStatusOf
        (run { createOk := true, createError := 0, waitResult := 0,
               terminateOk := true, probeResult := 0, exitCodeOk := true,
               exitCode := 42 })
      = 42
    ∧ ((42 : Nat) < 2 ^ 31 →
        run { createOk := true, createError := 0, waitResult := 0,
              terminateOk := true, probeResult := 0, exitCodeOk := true,
              exitCode := 42 } = (42 : Int)) :=
  child_exit_code_passthrough _ rfl rfl rfl (by norm_num)

/-- C10: a child exit code at or above `2^31` is returned from `wmain` as
its two's-complement 32-bit reinterpretation, which differs from the
original unsigned value. -/
theorem exit_code_signed_reinterpretation (env : OSEnv)
    (h1 : env.createOk = true) (h2 : env.waitResult = WAIT_OBJECT_0)
    (h3 : env.exitCodeOk = true) (h4 : 2 ^ 31 ≤ env.exitCode)
    (h5 : env.exitCode < 2 ^ 32) :
    run env = (env.exitCode : Int) - 2 ^ 32
    ∧ run env ≠ (env.exitCode : Int) := by
  have hni : toInt32 env.exitCode = (env.exitCode : Int) - 2 ^ 32 := by
    unfold toInt32
    rw [Nat.mod_eq_of_lt h5, if_neg (by omega)]
  rw [run_completed env h1 h2 h3, hni]
  constructor
  · rfl
  · intro hcon
    omega

/-- Witness for C10: the child exit code `2^31` comes back from `wmain` as
`-2^31`, not as `2^31`. -/
theorem exit_code_signed_reinterpretation_witness :
    run { createOk := true, createError := 0, waitResult := 0,
          terminateOk := true, probeResult := 0, exitCodeOk := true,
          exitCode := 2147483648 } = ((2147483648 : Nat) : Int) - 2 ^ 32
    ∧ run { createOk := true, createError := 0, waitResult := 0,
            terminateOk := true, probeResult := 0, exitCodeOk := true,
            exitCode := 2147483648 } ≠ ((2147483648 : Nat) : Int) :=
  exit_code_signed_reinterpretation _ rfl rfl rfl (by norm_num) (by norm_num)
